/-
  Verification of the graph query engine and graph builder of the
  hackathon repository (src/backend/app/graph_query_engine.py,
  src/backend/app/graph_builder.py, src/backend/app/llm_analyzer.py).

  The Python code is shallowly embedded: the in-memory networkx DiGraph
  becomes a structure holding an insertion-ordered node list and an
  insertion-ordered edge list (networkx preserves insertion order for
  nodes, successors and predecessors, and keeps at most one edge per
  ordered pair, re-adding overwriting the attributes in place).  Pure
  Python functions become Lean functions over that structure.
-/
import Mathlib

namespace Hackathon

/-! ## ASCII string helpers

Python lowercasing and substring tests, restricted to ASCII (all trigger
keywords and all identifiers in the repository are ASCII). -/

/-- ASCII lowercase of one character, as Python str.lower does on ASCII. -/
def lowerCh (c : Char) : Char :=
  if 'A' ≤ c && c ≤ 'Z' then Char.ofNat (c.toNat + 32) else c

/-- ASCII lowercase of a character list. -/
def lowerStr (l : List Char) : List Char := l.map lowerCh

/-- Does the first list start with the second one. -/
def startsWithL : List Char → List Char → Bool
  | _, [] => true
  | [], _ :: _ => false
  | a :: restA, b :: restB => a == b && startsWithL restA restB

/-- Substring containment on character lists: models the Python
`needle in hay` test on strings. -/
def containsSub (hay needle : List Char) : Bool :=
  match hay with
  | [] => needle.isEmpty
  | _ :: rest => startsWithL hay needle || containsSub rest needle

/-! ## Query Classifier (GraphQueryEngine._classify_query)

The trigger table is the `self.query_types` dict of the engine, in its
insertion order; `_classify_query` lowercases the query and returns the
first label one of whose keywords occurs in it, defaulting to related. -/

def pathTriggers : List String :=
  ["how", "implemented", "realize", "from paper to code", "chain"]

def dependencyTriggers : List String :=
  ["depends", "requires", "needs", "prerequisite", "based on"]

def gapTriggers : List String :=
  ["missing", "not implemented", "gaps", "lacking", "unimplemented"]

def impactTriggers : List String :=
  ["affect", "modify", "change", "impact", "downstream", "breaks"]

def summaryTriggers : List String :=
  ["summarize", "overview", "explain", "architecture", "structure"]

def findTriggers : List String :=
  ["where", "locate", "find", "show me", "which files"]

def relatedTriggers : List String :=
  ["related to", "connected to", "associated with", "linked"]

/-- The ordered label-to-triggers table `GraphQueryEngine.query_types`. -/
def query_types : List (String × List String) :=
  [("path", pathTriggers), ("dependency", dependencyTriggers),
   ("gap", gapTriggers), ("impact", impactTriggers),
   ("summary", summaryTriggers), ("find", findTriggers),
   ("related", relatedTriggers)]

/-- Does keyword `k` occur in the lowercased query. -/
def hasTrigger (q : String) (k : String) : Bool :=
  containsSub (lowerStr q.data) k.data

/-- GraphQueryEngine._classify_query: first label in table order with a
matching keyword, else the default related. -/
def classify_query (q : String) : String :=
  match query_types.find? (fun p => p.2.any (fun k => hasTrigger q k)) with
  | some p => p.1
  | none => "related"

/-! ## Evidence Renderer (GraphQueryEngine._enhance_with_llm,
GraphQueryEngine._generate_fallback_answer, LLMAnalyzer._call_llm)

`_generate_fallback_answer` reads exactly two fields of the evidence
record, `type` and `count`, so the renderer is modelled over those two.
`LLMAnalyzer._call_llm` wraps the chat-completion API call in a
try/except and on exception returns an error-describing string instead
of raising; the API outcome is modelled as an `Except`.
`_enhance_with_llm` wraps the `_call_llm` invocation in its own
try/except: the outcome of that invocation is modelled as an
`Option String`, `some s` when the call returned the string `s` and
`none` when the call itself raised. -/

/-- GraphQueryEngine._generate_fallback_answer on the two fields it
reads from the evidence record. -/
def generate_fallback_answer (etype : String) (count : Nat) : String :=
  "Found " ++ toString count ++ " " ++ etype ++
    " results in the graph. Check the visualization for details."

/-- LLMAnalyzer._call_llm: returns the model response on success and an
error-describing string, not an exception, on API failure. -/
def call_llm (api : Except String String) : String :=
  match api with
  | .ok s => s
  | .error e => "Error calling LLM: " ++ e

/-- GraphQueryEngine._enhance_with_llm: returns whatever string the
`_call_llm` invocation produced, and the deterministic fallback only
when that invocation raised. -/
def enhance_with_llm (callResult : Option String) (etype : String) (count : Nat) : String :=
  match callResult with
  | some s => s
  | none => generate_fallback_answer etype count

/-! ## Graph Store (networkx DiGraph as used by the repository)

Node attributes are the keys the builders set; `files`, `functions` and
`fullContent` default to empty for the modality that does not carry
them, matching the `.get(key, default)` reads in the query engine.
Edge attributes: `crossModal`/`intraPaper` are false for edges built by
`build_graph`, which sets neither key (a missing key reads as falsy
through `.get`). -/

structure NodeData where
  ntype : String
  name : String
  description : String
  modality : String
  files : List String
  functions : List String
  fullContent : String
  deriving DecidableEq, Repr, Inhabited

structure EdgeData where
  relation : String
  description : String
  confidence : Nat
  evidence : String
  crossModal : Bool
  intraPaper : Bool
  deriving DecidableEq, Repr, Inhabited

structure Edge where
  source : String
  target : String
  attrs : EdgeData
  deriving DecidableEq, Repr, Inhabited

/-- The in-memory directed graph: insertion-ordered nodes (unique ids)
and insertion-ordered edges (at most one per ordered pair). -/
structure Graph where
  nodes : List (String × NodeData)
  edges : List Edge
  deriving DecidableEq, Repr, Inhabited

def emptyGraph : Graph := ⟨[], []⟩

def Graph.hasNode (g : Graph) (id : String) : Bool :=
  g.nodes.any (fun p => p.1 == id)

def Graph.lookupNode (g : Graph) (id : String) : Option NodeData :=
  (g.nodes.find? (fun p => p.1 == id)).map (·.2)

/-- networkx add_node: overwrite the attributes in place when the id is
already present (keeping its position), append otherwise. -/
def Graph.addNode (g : Graph) (id : String) (d : NodeData) : Graph :=
  if g.nodes.any (fun p => p.1 == id) then
    { g with nodes := g.nodes.map (fun p => if p.1 == id then (id, d) else p) }
  else
    { g with nodes := g.nodes ++ [(id, d)] }

/-- networkx add_edge on the edge list: overwrite the attributes of the
ordered pair in place when present, append otherwise. -/
def setEdgeList (es : List Edge) (e : Edge) : List Edge :=
  if es.any (fun x => x.source == e.source && x.target == e.target) then
    es.map (fun x => if x.source == e.source && x.target == e.target then e else x)
  else
    es ++ [e]

/-- networkx add_edge; every call site in the repository guards it with
has_node on both endpoints, so the implicit node creation of networkx
is never exercised and is omitted here. -/
def Graph.addEdge (g : Graph) (s t : String) (a : EdgeData) : Graph :=
  { g with edges := setEdgeList g.edges ⟨s, t, a⟩ }

/-- networkx successors / neighbors of a DiGraph node, in edge insertion
order. -/
def Graph.successors (g : Graph) (n : String) : List String :=
  (g.edges.filter (fun e => e.source == n)).map (·.target)

/-- networkx predecessors of a DiGraph node, in edge insertion order. -/
def Graph.predecessors (g : Graph) (n : String) : List String :=
  (g.edges.filter (fun e => e.target == n)).map (·.source)

/-- Attribute lookup self.graph.edges[s, t]. -/
def Graph.getEdge (g : Graph) (s t : String) : Option EdgeData :=
  (g.edges.find? (fun e => e.source == s && e.target == t)).map (·.attrs)

/-- self.graph.edges[s, t] at call sites where the pair is known to be
present (consecutive path nodes, predecessor/successor edges); the
default is unreachable there. -/
def Graph.getEdgeD (g : Graph) (s t : String) : EdgeData :=
  (g.getEdge s t).getD default

/-- self.graph.nodes[id].get('name', id). -/
def nodeName (g : Graph) (id : String) : String :=
  match g.lookupNode id with
  | some d => d.name
  | none => id

/-- self.graph.nodes[id].get('modality', 'unknown'). -/
def nodeModality (g : Graph) (id : String) : String :=
  match g.lookupNode id with
  | some d => d.modality
  | none => "unknown"

/-! ## Graph Assembly (GraphBuilder.build_graph, build_unified_graph)

Both builders start from `self.graph.clear()`: the previous graph is
taken as an argument and discarded, mirroring the full-replacement
semantics.  Their two loop shapes (add nodes from records, add edges
from records guarded by has_node on both endpoints) are factored into
`addNodesFrom` and `addEdgesChecked`. -/

structure Feature where
  id : String
  name : String
  description : String
  files : List String
  functions : List String
  deriving DecidableEq, Repr

structure Relationship where
  source : String
  target : String
  rtype : String
  description : String
  confidence : Nat
  evidence : String
  deriving DecidableEq, Repr

/-- A node record of build_unified_graph (paper nodes use fullContent,
code nodes use files/functions; the other fields read as defaults). -/
structure UNode where
  id : String
  ntype : String
  name : String
  description : String
  fullContent : String
  files : List String
  functions : List String
  deriving DecidableEq, Repr

/-- An edge record of build_unified_graph (paper_edges or
cross_modal_edges entry). -/
structure UEdge where
  source : String
  target : String
  etype : String
  description : String
  confidence : Nat
  evidence : String
  deriving DecidableEq, Repr

/-- The node-creation loop shared by the builders. -/
def addNodesFrom {σ : Type} (g : Graph) (L : List σ)
    (nid : σ → String) (mk : σ → NodeData) : Graph :=
  L.foldl (fun g n => g.addNode (nid n) (mk n)) g

/-- The edge-creation loop shared by the builders: an edge is added only
when both endpoints already exist as nodes, otherwise the record is
silently dropped. -/
def addEdgesChecked {σ : Type} (g : Graph) (L : List σ)
    (src tgt : σ → String) (mk : σ → EdgeData) : Graph :=
  L.foldl (fun g r =>
    if g.hasNode (src r) && g.hasNode (tgt r) then
      g.addEdge (src r) (tgt r) (mk r)
    else g) g

/-- The node attributes build_graph sets for a feature. -/
def mkFeatureNode (f : Feature) : NodeData :=
  ⟨"feature", f.name, f.description, "code", f.files, f.functions, ""⟩

/-- The edge attributes build_graph sets for a relationship (it sets
neither cross_modal nor intra_paper, which therefore read as falsy). -/
def mkRelEdge (r : Relationship) : EdgeData :=
  ⟨r.rtype, r.description, r.confidence, r.evidence, false, false⟩

/-- The node attributes build_unified_graph sets for a paper node. -/
def mkPaperNode (n : UNode) : NodeData :=
  ⟨n.ntype, n.name, n.description, "paper", [], [], n.fullContent⟩

/-- The node attributes build_unified_graph sets for a code node. -/
def mkCodeNode (n : UNode) : NodeData :=
  ⟨n.ntype, n.name, n.description, "code", n.files, n.functions, ""⟩

/-- The edge attributes build_unified_graph sets for a paper_edges
record: cross_modal=False, intra_paper=True. -/
def mkPaperEdge (e : UEdge) : EdgeData :=
  ⟨e.etype, e.description, e.confidence, e.evidence, false, true⟩

/-- The edge attributes build_unified_graph sets for a
cross_modal_edges record: cross_modal=True, intra_paper=False. -/
def mkCrossEdge (e : UEdge) : EdgeData :=
  ⟨e.etype, e.description, e.confidence, e.evidence, true, false⟩

/-- GraphBuilder.build_graph: clear, one code node per feature, one edge
per relationship whose endpoints both exist. -/
def build_graph (prev : Graph) (features : List Feature)
    (relationships : List Relationship) : Graph :=
  let _ := prev
  addEdgesChecked (addNodesFrom emptyGraph features Feature.id mkFeatureNode)
    relationships Relationship.source Relationship.target mkRelEdge

/-- The node population phase of build_unified_graph: paper nodes then
code nodes, over a cleared graph. -/
def unifiedNodeGraph (paper_nodes code_nodes : List UNode) : Graph :=
  addNodesFrom (addNodesFrom emptyGraph paper_nodes UNode.id mkPaperNode)
    code_nodes UNode.id mkCodeNode

/-- GraphBuilder.build_unified_graph: clear, paper nodes, code nodes,
paper-internal edges, then cross-modal edges. -/
def build_unified_graph (prev : Graph) (paper_nodes code_nodes : List UNode)
    (cross_modal_edges paper_edges : List UEdge) : Graph :=
  let _ := prev
  addEdgesChecked
    (addEdgesChecked (unifiedNodeGraph paper_nodes code_nodes) paper_edges
      UEdge.source UEdge.target mkPaperEdge)
    cross_modal_edges UEdge.source UEdge.target mkCrossEdge

/-! ## Entity Resolver (GraphQueryEngine._extract_entities)

Three passes: double-quoted substrings (re.findall of "([^"]+)"),
capitalized phrases (re.findall of \b[A-Z][a-z]+(?:\s+[A-Z][a-z]+)*\b,
implemented below as an explicit left-to-right scanner with the same
matches), and node names occurring as substrings of the query.  The
Python list(set(...))[:5] is modelled as first-occurrence
deduplication followed by take 5. -/

/-- A word character for the \b boundary of the regex (ASCII). -/
def isWordChar (c : Char) : Bool := c.isAlpha || c.isDigit || c == '_'

def isUpperAl (c : Char) : Bool := 'A' ≤ c && c ≤ 'Z'

def isLowerAl (c : Char) : Bool := 'a' ≤ c && c ≤ 'z'

def isSpaceCh (c : Char) : Bool := c == ' ' || c == '\t' || c == '\n' || c == '\r'

/-- re.findall of "([^\x22]+)": scan for an opening quote, take the
nonempty run up to the closing quote, resume after it.  A quote with no
nonempty quoted run after it matches nothing and scanning moves on. -/
def findQuoted : Nat → List Char → List (List Char)
  | 0, _ => []
  | _, [] => []
  | fuel + 1, c :: rest =>
    if c = '"' then
      match rest.dropWhile (fun x => x ≠ '"') with
      | _ :: tail =>
        let content := rest.takeWhile (fun x => x ≠ '"')
        if content.isEmpty then findQuoted fuel rest
        else content :: findQuoted fuel tail
      | [] => findQuoted fuel rest
    else findQuoted fuel rest

/-- One [A-Z][a-z]+ word followed by a word boundary: an uppercase
letter, a maximal nonempty lowercase run, and a following character
that is not a word character (else the regex match fails at this
start).  Returns the word and the rest of the input. -/
def parseTitleWord (l : List Char) : Option (List Char × List Char) :=
  match l with
  | [] => none
  | u :: rest =>
    if isUpperAl u then
      let lows := rest.takeWhile isLowerAl
      let rem := rest.dropWhile isLowerAl
      if lows.isEmpty then none
      else
        match rem with
        | [] => some (u :: lows, [])
        | c :: _ => if isWordChar c then none else some (u :: lows, rem)
    else none

/-- The (?:\s+[A-Z][a-z]+)* continuation: greedily append further
whitespace-separated title words; stop (without consuming) as soon as
the next word does not parse up to a boundary. -/
def parseChain : Nat → List Char → List Char → List Char × List Char
  | 0, w, rem => (w, rem)
  | fuel + 1, w, rem =>
    let ws := rem.takeWhile isSpaceCh
    let afterWs := rem.dropWhile isSpaceCh
    if ws.isEmpty then (w, rem)
    else
      match parseTitleWord afterWs with
      | some (w2, rem2) => parseChain fuel (w ++ ws ++ w2) rem2
      | none => (w, rem)

/-- Left-to-right non-overlapping scan of
\b[A-Z][a-z]+(?:\s+[A-Z][a-z]+)*\b, tracking the previous character for
the leading word boundary. -/
def scanCapPhrases : Nat → Option Char → List Char → List (List Char)
  | 0, _, _ => []
  | _, _, [] => []
  | fuel + 1, prev, c :: rest =>
    let boundaryOK := match prev with
      | none => true
      | some p => !isWordChar p
    if boundaryOK then
      match parseTitleWord (c :: rest) with
      | some (w, rem) =>
        let chain := parseChain fuel w rem
        chain.1 :: scanCapPhrases fuel (some (chain.1.getLastD 'a')) chain.2
      | none => scanCapPhrases fuel (some c) rest
    else scanCapPhrases fuel (some c) rest

/-- The capitalized-phrase pass of _extract_entities. -/
def cap_phrases (q : String) : List String :=
  (scanCapPhrases (q.data.length + 1) none q.data).map (fun l => String.mk l)

/-- GraphQueryEngine._extract_entities: quoted strings, capitalized
phrases and node names occurring in the query, deduplicated and capped
at 5 entries. -/
def extract_entities (g : Graph) (q : String) : List String :=
  let quoted := (findQuoted q.data.length q.data).map (fun l => String.mk l)
  let caps := cap_phrases q
  let nameMatches := g.nodes.filterMap (fun p =>
    if !(p.2.name == "") && containsSub (lowerStr q.data) (lowerStr p.2.name.data) then
      some p.2.name
    else none)
  ((quoted ++ caps ++ nameMatches).eraseDups).take 5

/-- GraphQueryEngine._find_nodes_by_entities: graph nodes (optionally
filtered by modality) whose name contains some entity or is contained
in it, case-insensitively.  A node whose name is empty matches every
entity, as the empty string is a substring of anything. -/
def findNodesByEntities (g : Graph) (entities : List String)
    (modality : Option String) : List String :=
  g.nodes.filterMap (fun p =>
    if (match modality with
        | some m => p.2.modality == m
        | none => true)
       && entities.any (fun ent =>
            containsSub (lowerStr p.2.name.data) (lowerStr ent.data) ||
            containsSub (lowerStr ent.data) (lowerStr p.2.name.data)) then
      some p.1
    else none)

/-! ## Neighborhood expansion (GraphQueryEngine._get_neighborhood_subgraph) -/

/-- Insertion-ordered set union: add each element of the second list to
the first unless already present (models updating a Python set). -/
def unionAdd (acc xs : List String) : List String :=
  xs.foldl (fun a x => if a.contains x then a else a ++ [x]) acc

/-- set(seed_nodes). -/
def dedupList (xs : List String) : List String := unionAdd [] xs

/-- One hop of the expansion loop: for every node currently in the set
that exists in the graph, union in its successors and predecessors. -/
def stepOnce (g : Graph) (cur : List String) : List String :=
  cur.foldl (fun acc n =>
    if g.hasNode n then
      unionAdd (unionAdd acc (g.successors n)) (g.predecessors n)
    else acc) cur

/-- The hop loop of _get_neighborhood_subgraph: after each completed
hop, stop when the accumulated set holds more than 30 nodes. -/
def expandLoop (g : Graph) : Nat → List String → List String
  | 0, cur => cur
  | h + 1, cur =>
    let next := stepOnce g cur
    if 30 < next.length then next else expandLoop g h next

/-- The expansion loop without the size check, for stating how the
check truncates it. -/
def uncappedLoop (g : Graph) : Nat → List String → List String
  | 0, cur => cur
  | h + 1, cur => uncappedLoop g h (stepOnce g cur)

structure NbrResult where
  nodes : List String
  edges : List (String × String × String)
  deriving DecidableEq, Repr

/-- GraphQueryEngine._get_neighborhood_subgraph: expand, then collect
the induced edges (both endpoints inside the node set). -/
def get_neighborhood_subgraph (g : Graph) (seeds : List String) (hops : Nat) :
    NbrResult :=
  let ns := expandLoop g hops (dedupList seeds)
  let es := (g.edges.filter (fun e => ns.contains e.source && ns.contains e.target)).map
    (fun e => (e.source, e.target, e.attrs.relation))
  ⟨ns, es⟩

/-! ## Path strategy (GraphQueryEngine._handle_path_query)

nx.shortest_path on an unweighted DiGraph returns some shortest
directed path, or raises when none exists or an endpoint is missing;
it is modelled as a breadth-first search returning an Option.  Every
use below is on graphs where the shortest path is unique, so the
tie-breaking of the search is immaterial. -/

/-- Breadth-first search: the queue holds reversed partial paths, nodes
are marked visited when enqueued.  Fuel bounds the number of dequeue
steps (one per enqueued node plus the start). -/
def bfsLoop (g : Graph) (t : String) :
    Nat → List (List String) → List String → Option (List String)
  | 0, _, _ => none
  | _ + 1, [], _ => none
  | fuel + 1, p :: queue, vis =>
    match p with
    | [] => none
    | u :: _ =>
      if u == t then some p.reverse
      else
        let fresh := ((g.successors u).filter (fun v => !(vis.contains v))).eraseDups
        bfsLoop g t fuel (queue ++ fresh.map (fun v => v :: p)) (vis ++ fresh)

/-- nx.shortest_path(graph, s, t): none models both NetworkXNoPath and
NodeNotFound, which the caller treats alike. -/
def shortestPath (g : Graph) (s t : String) : Option (List String) :=
  if g.hasNode s && g.hasNode t then
    bfsLoop g t (g.nodes.length + g.edges.length + 1) [[s]] [s]
  else none

structure PathStep where
  src : String
  tgt : String
  srcName : String
  tgtName : String
  relation : String
  description : String
  deriving DecidableEq, Repr

structure PathDetails where
  nodes : List String
  steps : List PathStep
  length : Nat
  deriving DecidableEq, Repr

/-- GraphQueryEngine._get_path_details: one step per consecutive pair
of path nodes, with the names and the edge attributes. -/
def get_path_details (g : Graph) (path : List String) : PathDetails :=
  let steps := (path.zip path.tail).map (fun st =>
    ⟨st.1, st.2, nodeName g st.1, nodeName g st.2,
      (g.getEdgeD st.1 st.2).relation, (g.getEdgeD st.1 st.2).description⟩)
  ⟨path, steps, path.length⟩

structure PathResult where
  paths : List PathDetails
  nodes : List String
  count : Nat
  deriving DecidableEq, Repr

/-- GraphQueryEngine._handle_path_query: shortest paths for each
(paper, code) node pair, capped at 3 each; on zero paths and a
nonempty seed set, fall back to the 2-hop neighborhood. -/
def handle_path_query (g : Graph) (entities : List String) : PathResult :=
  let paper_nodes := findNodesByEntities g entities (some "paper")
  let code_nodes := findNodesByEntities g entities (some "code")
  let paths_found := (paper_nodes.take 3).flatMap (fun p =>
    (code_nodes.take 3).filterMap (fun c =>
      (shortestPath g p c).map (get_path_details g)))
  let nodes_in_paths := paths_found.foldl (fun acc pd => unionAdd acc pd.nodes) []
  let nodes_final :=
    if paths_found.isEmpty && !(paper_nodes.isEmpty && code_nodes.isEmpty) then
      unionAdd nodes_in_paths
        (get_neighborhood_subgraph g (paper_nodes ++ code_nodes) 2).nodes
    else nodes_in_paths
  ⟨paths_found, nodes_final, paths_found.length⟩

/-! ## Dependency and Impact strategies
(GraphQueryEngine._handle_dependency_query, _handle_impact_query)

The loops only append to the evidence list, so they are written as
flatMaps in the identical order.  One-hop entries carry the edge
description (and, for impact, the successor modality); two-hop entries
carry neither key, modelled with none. -/

structure DepEntry where
  src : String
  tgt : String
  relation : String
  description : Option String
  srcName : String
  tgtName : String
  deriving DecidableEq, Repr

structure DepResult where
  dependencies : List DepEntry
  nodes : List String
  count : Nat
  deriving DecidableEq, Repr

/-- GraphQueryEngine._handle_dependency_query: for up to 3 resolved
targets, up to 5 direct predecessors each (one entry per edge walked
backward), and up to 3 second-hop predecessors of each of those. -/
def handle_dependency_query (g : Graph) (entities : List String) : DepResult :=
  let target_nodes := findNodesByEntities g entities none
  let dependencies := (target_nodes.take 3).flatMap (fun node =>
    ((g.predecessors node).take 5).flatMap (fun dep =>
      ⟨dep, node, (g.getEdgeD dep node).relation,
        some (g.getEdgeD dep node).description, nodeName g dep, nodeName g node⟩
      :: ((g.predecessors dep).take 3).map (fun dep2 =>
        ⟨dep2, dep, (g.getEdgeD dep2 dep).relation, none,
          nodeName g dep2, nodeName g dep⟩)))
  let all_dep_nodes := (target_nodes.take 3).foldl (fun acc node =>
    ((g.predecessors node).take 5).foldl (fun acc2 dep =>
      ((g.predecessors dep).take 3).foldl (fun acc3 dep2 => unionAdd acc3 [dep2])
        (unionAdd acc2 [node, dep])) acc) []
  ⟨dependencies, all_dep_nodes, dependencies.length⟩

structure ImpEntry where
  src : String
  tgt : String
  relation : String
  description : Option String
  srcName : String
  tgtName : String
  modality : Option String
  deriving DecidableEq, Repr

structure ImpResult where
  affected : List ImpEntry
  nodes : List String
  count : Nat
  deriving DecidableEq, Repr

/-- GraphQueryEngine._handle_impact_query: the successor-walking dual
of the dependency handler (up to 3 seeds, 5 first-hop successors,
3 second-hop successors each). -/
def handle_impact_query (g : Graph) (entities : List String) : ImpResult :=
  let source_nodes := findNodesByEntities g entities none
  let affected := (source_nodes.take 3).flatMap (fun node =>
    ((g.successors node).take 5).flatMap (fun succ =>
      ⟨node, succ, (g.getEdgeD node succ).relation,
        some (g.getEdgeD node succ).description, nodeName g node, nodeName g succ,
        some (nodeModality g succ)⟩
      :: ((g.successors succ).take 3).map (fun succ2 =>
        ⟨succ, succ2, (g.getEdgeD succ succ2).relation, none,
          nodeName g succ, nodeName g succ2, none⟩)))
  let all_affected_nodes := (source_nodes.take 3).foldl (fun acc node =>
    ((g.successors node).take 5).foldl (fun acc2 succ =>
      ((g.successors succ).take 3).foldl (fun acc3 succ2 => unionAdd acc3 [succ2])
        (unionAdd acc2 [node, succ])) acc) []
  ⟨affected, all_affected_nodes, affected.length⟩

/-! ## Gap strategy (GraphQueryEngine._handle_gap_query) -/

structure GapEntry where
  node : String
  name : String
  ntype : String
  description : String
  reason : String
  deriving DecidableEq, Repr

structure GapResult where
  gaps : List GapEntry
  nodes : List String
  count : Nat
  deriving DecidableEq, Repr

/-- Does the node have an outgoing edge flagged cross_modal whose
relation is implements or describes (the inner successor loop of
_handle_gap_query). -/
def has_implementation (g : Graph) (n : String) : Bool :=
  (g.successors n).any (fun s =>
    match g.getEdge n s with
    | some a => a.crossModal && (a.relation == "implements" || a.relation == "describes")
    | none => false)

/-- GraphQueryEngine._handle_gap_query: every paper-modality node with
no qualifying outgoing edge becomes a gap entry. -/
def handle_gap_query (g : Graph) : GapResult :=
  let gaps := g.nodes.filterMap (fun p =>
    if p.2.modality == "paper" && !(has_implementation g p.1) then
      some (⟨p.1, p.2.name, p.2.ntype, p.2.description,
        "No code implementation found"⟩ : GapEntry)
    else none)
  ⟨gaps, gaps.map (·.node), gaps.length⟩

/-! ## Find strategy (GraphQueryEngine._handle_find_query) -/

inductive LocEntry where
  | codeLoc (node name : String) (files functions : List String) (ntype : String)
  | paperLoc (node name ntype description : String)
  deriving DecidableEq, Repr

structure FindResult where
  locations : List LocEntry
  nodes : List String
  count : Nat
  deriving DecidableEq, Repr

/-- GraphQueryEngine._handle_find_query: location entries for at most
the first 10 resolved nodes, while the nodes field keeps the full
resolved list.  Paper descriptions are truncated to 200 characters. -/
def handle_find_query (g : Graph) (entities : List String) : FindResult :=
  let target_nodes := findNodesByEntities g entities none
  let locations := (target_nodes.take 10).map (fun node =>
    let d := (g.lookupNode node).getD default
    if d.modality == "code" then
      LocEntry.codeLoc node d.name d.files d.functions d.ntype
    else
      LocEntry.paperLoc node d.name d.ntype (String.mk (d.description.data.take 200)))
  ⟨locations, target_nodes, locations.length⟩

/-! ## Concrete graphs used as inputs of closed theorems -/

/-- The two-node graph of end-to-end scenario 1. -/
def gScenario : Graph :=
  ⟨[("paper_section_0", ⟨"paper_section", "Attention", "", "paper", [], [], ""⟩),
    ("feature_0", ⟨"feature", "MultiHeadAttention", "", "code", [], [], ""⟩)],
   [⟨"paper_section_0", "feature_0", ⟨"implements", "", 70, "", true, false⟩⟩]⟩

/-- A star graph: one seed with 31 successors. -/
def gCap : Graph :=
  ⟨("s", default) :: (List.range 31).map (fun i => ("n" ++ toString i, default)),
   (List.range 31).map (fun i => ⟨"s", "n" ++ toString i, default⟩)⟩

/-- A graph in which node B has six predecessors, inserted in order
p1 to p6. -/
def gSixPreds : Graph :=
  ⟨[("p1", ⟨"feature", "src1", "", "code", [], [], ""⟩),
    ("p2", ⟨"feature", "src2", "", "code", [], [], ""⟩),
    ("p3", ⟨"feature", "src3", "", "code", [], [], ""⟩),
    ("p4", ⟨"feature", "src4", "", "code", [], [], ""⟩),
    ("p5", ⟨"feature", "src5", "", "code", [], [], ""⟩),
    ("p6", ⟨"feature", "src6", "", "code", [], [], ""⟩),
    ("B", ⟨"feature", "target", "", "code", [], [], ""⟩)],
   [⟨"p1", "B", default⟩, ⟨"p2", "B", default⟩, ⟨"p3", "B", default⟩,
    ⟨"p4", "B", default⟩, ⟨"p5", "B", default⟩, ⟨"p6", "B", default⟩]⟩

/-- A two-node graph with the single edge A -> B used to instantiate
the duality theorem. -/
def gDual : Graph :=
  ⟨[("A", ⟨"feature", "alpha", "", "code", [], [], ""⟩),
    ("B", ⟨"feature", "beta", "", "code", [], [], ""⟩)],
   [⟨"A", "B", default⟩]⟩

/-- Eleven code nodes all named dup, so that the single entity "dup"
resolves all of them. -/
def gEleven : Graph :=
  ⟨(List.range 11).map
    (fun i => ("f" ++ toString i, ⟨"feature", "dup", "", "code", [], [], ""⟩)), []⟩

/-- Input records and graphs for the builder theorems. -/
def fdW : List Feature :=
  [⟨"f1", "FeatOne", "", [], []⟩, ⟨"f2", "FeatTwo", "", [], []⟩]

def relsW : List Relationship := [⟨"f1", "f2", "calls", "", 70, ""⟩]

/-- A relationship whose target is not a node. -/
def rBad : Relationship := ⟨"f1", "ghost", "calls", "", 70, ""⟩

/-- The edge build_graph creates from relsW. -/
def eW : Edge := ⟨"f1", "f2", ⟨"calls", "", 70, "", false, false⟩⟩

/-- Unified-build input: two paper nodes, one code node, a cross-modal
record joining the two paper nodes, and a paper-internal record joining
a paper node to the code node. -/
def pnW : List UNode :=
  [⟨"p1", "concept", "Alpha", "", "", [], []⟩,
   ⟨"p2", "concept", "Beta", "", "", [], []⟩]

def cnW : List UNode := [⟨"c1", "feature", "Gamma", "", "", [], []⟩]

def ceW : List UEdge := [⟨"p1", "p2", "relates", "", 70, ""⟩]

def peW : List UEdge := [⟨"p1", "c1", "builds_on", "", 80, ""⟩]

def gUnifiedW : Graph := build_unified_graph emptyGraph pnW cnW ceW peW

/-- The cross-modal-flagged edge of gUnifiedW. -/
def eCrossW : Edge := ⟨"p1", "p2", ⟨"relates", "", 70, "", true, false⟩⟩

/-- A paper node with no outgoing edges, for the gap theorem. -/
def dPaperIdea : NodeData := ⟨"concept", "Idea", "", "paper", [], [], ""⟩

def gGapW : Graph := ⟨[("p", dPaperIdea)], []⟩

/-! ## Helper lemmas about the graph primitives -/

lemma and_true_split {a b : Bool} (h : (a && b) = true) :
    a = true ∧ b = true := by
  simp only [Bool.and_eq_true] at h
  exact h

lemma edges_addNode (g : Graph) (id : String) (d : NodeData) :
    (g.addNode id d).edges = g.edges := by
  unfold Graph.addNode
  split <;> rfl

lemma nodes_addEdge (g : Graph) (s t : String) (a : EdgeData) :
    (g.addEdge s t a).nodes = g.nodes := rfl

lemma mem_setEdgeList {es : List Edge} {e e' : Edge} :
    e' ∈ setEdgeList es e ↔
      e' = e ∨ (e' ∈ es ∧ ¬ (e'.source = e.source ∧ e'.target = e.target)) := by
  unfold setEdgeList
  by_cases h : (es.any fun x => x.source == e.source && x.target == e.target) = true
  · rw [if_pos h]
    constructor
    · intro hm
      rw [List.mem_map] at hm
      obtain ⟨x, hx, hfx⟩ := hm
      by_cases hp : (x.source == e.source && x.target == e.target) = true
      · rw [if_pos hp] at hfx
        exact Or.inl hfx.symm
      · rw [if_neg hp] at hfx
        subst hfx
        exact Or.inr ⟨hx, fun hpair => hp (by simp [hpair.1, hpair.2])⟩
    · intro hm
      rcases hm with rfl | ⟨hmem, hne⟩
      · rw [List.any_eq_true] at h
        obtain ⟨x, hx, hpx⟩ := h
        rw [List.mem_map]
        exact ⟨x, hx, by rw [if_pos hpx]⟩
      · rw [List.mem_map]
        refine ⟨e', hmem, ?_⟩
        rw [if_neg]
        intro hcontr
        apply hne
        simpa [Bool.and_eq_true, beq_iff_eq] using hcontr
  · rw [if_neg h]
    rw [List.mem_append, List.mem_singleton]
    constructor
    · intro hm
      rcases hm with hmem | rfl
      · refine Or.inr ⟨hmem, fun hpair => ?_⟩
        apply h
        rw [List.any_eq_true]
        exact ⟨e', hmem, by simp [hpair.1, hpair.2]⟩
      · exact Or.inl rfl
    · intro hm
      rcases hm with rfl | ⟨hmem, _⟩
      · exact Or.inr rfl
      · exact Or.inl hmem

lemma addNodesFrom_cons {σ : Type} (g : Graph) (x : σ) (xs : List σ)
    (nid : σ → String) (mk : σ → NodeData) :
    addNodesFrom g (x :: xs) nid mk =
      addNodesFrom (g.addNode (nid x) (mk x)) xs nid mk := rfl

lemma addEdgesChecked_cons {σ : Type} (g : Graph) (x : σ) (xs : List σ)
    (src tgt : σ → String) (mk : σ → EdgeData) :
    addEdgesChecked g (x :: xs) src tgt mk =
      addEdgesChecked
        (if g.hasNode (src x) && g.hasNode (tgt x) then
          g.addEdge (src x) (tgt x) (mk x)
        else g) xs src tgt mk := rfl

lemma edges_addNodesFrom {σ : Type} (nid : σ → String) (mk : σ → NodeData) :
    ∀ (L : List σ) (g : Graph), (addNodesFrom g L nid mk).edges = g.edges := by
  intro L
  induction L with
  | nil => intro g; rfl
  | cons x xs ih =>
    intro g
    rw [addNodesFrom_cons, ih, edges_addNode]

lemma nodes_addEdgesChecked {σ : Type} (src tgt : σ → String) (mk : σ → EdgeData) :
    ∀ (L : List σ) (g : Graph), (addEdgesChecked g L src tgt mk).nodes = g.nodes := by
  intro L
  induction L with
  | nil => intro g; rfl
  | cons x xs ih =>
    intro g
    rw [addEdgesChecked_cons, ih]
    split <;> rfl

lemma hasNode_addEdgesChecked {σ : Type} (src tgt : σ → String) (mk : σ → EdgeData)
    (L : List σ) (g : Graph) (id : String) :
    (addEdgesChecked g L src tgt mk).hasNode id = g.hasNode id := by
  unfold Graph.hasNode
  rw [nodes_addEdgesChecked]

lemma memId_addNode (g : Graph) (id : String) (d : NodeData) (q : String) :
    q ∈ (g.addNode id d).nodes.map Prod.fst →
      q ∈ g.nodes.map Prod.fst ∨ q = id := by
  intro hq
  unfold Graph.addNode at hq
  split at hq
  · rw [List.mem_map] at hq
    obtain ⟨p, hp, hfp⟩ := hq
    rw [List.mem_map] at hp
    obtain ⟨p0, hp0, hf⟩ := hp
    by_cases hpx : (p0.1 == id) = true
    · rw [if_pos hpx] at hf
      subst hf
      exact Or.inr hfp.symm
    · rw [if_neg hpx] at hf
      subst hf
      exact Or.inl (List.mem_map.mpr ⟨p0, hp0, hfp⟩)
  · rw [List.map_append, List.mem_append] at hq
    rcases hq with h | h
    · exact Or.inl h
    · exact Or.inr (by simpa using h)

lemma memId_addNodesFrom {σ : Type} (nid : σ → String) (mk : σ → NodeData) :
    ∀ (L : List σ) (g : Graph) (q : String),
      q ∈ (addNodesFrom g L nid mk).nodes.map Prod.fst →
      q ∈ g.nodes.map Prod.fst ∨ q ∈ L.map nid := by
  intro L
  induction L with
  | nil => intro g q hq; exact Or.inl hq
  | cons x xs ih =>
    intro g q hq
    rw [addNodesFrom_cons] at hq
    rcases ih _ q hq with h | h
    · rcases memId_addNode g (nid x) (mk x) q h with h' | h'
      · exact Or.inl h'
      · subst h'
        exact Or.inr (by simp)
    · exact Or.inr (by rw [List.map_cons]; exact List.mem_cons_of_mem _ h)

lemma mem_addEdgesChecked {σ : Type} (src tgt : σ → String) (mk : σ → EdgeData) :
    ∀ (L : List σ) (g : Graph) (e : Edge),
      e ∈ (addEdgesChecked g L src tgt mk).edges →
      e ∈ g.edges ∨ ∃ x ∈ L, src x = e.source ∧ tgt x = e.target := by
  intro L
  induction L with
  | nil => intro g e he; exact Or.inl he
  | cons x xs ih =>
    intro g e he
    rw [addEdgesChecked_cons] at he
    rcases ih _ e he with hmem | ⟨y, hy, h1, h2⟩
    · by_cases hok : (g.hasNode (src x) && g.hasNode (tgt x)) = true
      · rw [if_pos hok] at hmem
        rcases mem_setEdgeList.mp hmem with rfl | ⟨hold, _⟩
        · exact Or.inr ⟨x, List.mem_cons_self _ _, rfl, rfl⟩
        · exact Or.inl hold
      · rw [if_neg hok] at hmem
        exact Or.inl hmem
    · exact Or.inr ⟨y, List.mem_cons_of_mem _ hy, h1, h2⟩

lemma endpoints_addEdgesChecked {σ : Type} (src tgt : σ → String) (mk : σ → EdgeData) :
    ∀ (L : List σ) (g : Graph),
      (∀ e ∈ g.edges, g.hasNode e.source = true ∧ g.hasNode e.target = true) →
      ∀ e ∈ (addEdgesChecked g L src tgt mk).edges,
        (addEdgesChecked g L src tgt mk).hasNode e.source = true ∧
        (addEdgesChecked g L src tgt mk).hasNode e.target = true := by
  intro L
  induction L with
  | nil => intro g hinv e he; exact hinv e he
  | cons x xs ih =>
    intro g hinv e he
    rw [addEdgesChecked_cons] at he ⊢
    by_cases hok : (g.hasNode (src x) && g.hasNode (tgt x)) = true
    · rw [if_pos hok] at he ⊢
      apply ih (g.addEdge (src x) (tgt x) (mk x)) _ e he
      intro e' he'
      rcases mem_setEdgeList.mp he' with rfl | ⟨hold, _⟩
      · exact ⟨(and_true_split hok).1, (and_true_split hok).2⟩
      · exact hinv e' hold
    · rw [if_neg hok] at he ⊢
      exact ih g hinv e he

lemma flags_addEdgesChecked {σ : Type} (src tgt : σ → String) (mk : σ → EdgeData)
    (b c : Bool) (hmk : ∀ x, (mk x).crossModal = b ∧ (mk x).intraPaper = c) :
    ∀ (L : List σ) (g : Graph) (e : Edge),
      e ∈ (addEdgesChecked g L src tgt mk).edges →
      ((∃ x ∈ L, src x = e.source ∧ tgt x = e.target ∧
          g.hasNode (src x) = true ∧ g.hasNode (tgt x) = true) →
        e.attrs.crossModal = b ∧ e.attrs.intraPaper = c) ∧
      ((¬ ∃ x ∈ L, src x = e.source ∧ tgt x = e.target ∧
          g.hasNode (src x) = true ∧ g.hasNode (tgt x) = true) →
        e ∈ g.edges) := by
  intro L
  induction L with
  | nil =>
    intro g e he
    exact ⟨fun h => absurd h (by simp), fun _ => he⟩
  | cons x xs ih =>
    intro g e he
    rw [addEdgesChecked_cons] at he
    by_cases hok : (g.hasNode (src x) && g.hasNode (tgt x)) = true
    · rw [if_pos hok] at he
      obtain ⟨ihA, ihB⟩ := ih (g.addEdge (src x) (tgt x) (mk x)) e he
      constructor
      · intro hex
        by_cases hxs : ∃ y ∈ xs, src y = e.source ∧ tgt y = e.target ∧
            g.hasNode (src y) = true ∧ g.hasNode (tgt y) = true
        · exact ihA hxs
        · have he' := ihB hxs
          rcases mem_setEdgeList.mp he' with rfl | ⟨hold, hne⟩
          · exact hmk x
          · obtain ⟨y, hy, h1, h2, h3, h4⟩ := hex
            rcases List.mem_cons.mp hy with rfl | hyxs
            · exact absurd ⟨h1.symm, h2.symm⟩ hne
            · exact absurd ⟨y, hyxs, h1, h2, h3, h4⟩ hxs
      · intro hnex
        have hxs : ¬ ∃ y ∈ xs, src y = e.source ∧ tgt y = e.target ∧
            g.hasNode (src y) = true ∧ g.hasNode (tgt y) = true := by
          rintro ⟨y, hy, hrest⟩
          exact hnex ⟨y, List.mem_cons_of_mem _ hy, hrest⟩
        have he' := ihB hxs
        rcases mem_setEdgeList.mp he' with rfl | ⟨hold, _⟩
        · exact absurd ⟨x, List.mem_cons_self _ _, rfl, rfl,
            (and_true_split hok).1, (and_true_split hok).2⟩ hnex
        · exact hold
    · rw [if_neg hok] at he
      obtain ⟨ihA, ihB⟩ := ih g e he
      constructor
      · intro hex
        obtain ⟨y, hy, h1, h2, h3, h4⟩ := hex
        rcases List.mem_cons.mp hy with rfl | hyxs
        · exact absurd (by simp [h3, h4]) hok
        · exact ihA ⟨y, hyxs, h1, h2, h3, h4⟩
      · intro hnex
        refine ihB ?_
        rintro ⟨y, hy, hrest⟩
        exact hnex ⟨y, List.mem_cons_of_mem _ hy, hrest⟩

lemma find?_map_overwrite (e : Edge) :
    ∀ es : List Edge,
      (es.any fun x => x.source == e.source && x.target == e.target) = true →
      (es.map (fun x =>
        if x.source == e.source && x.target == e.target then e else x)).find?
          (fun x => x.source == e.source && x.target == e.target) = some e := by
  intro es
  induction es with
  | nil => intro h; simp at h
  | cons y ys ih =>
    intro h
    rw [List.map_cons, List.find?_cons]
    by_cases hy : (y.source == e.source && y.target == e.target) = true
    · rw [if_pos hy]
      simp
    · rw [if_neg hy]
      have hyf : (y.source == e.source && y.target == e.target) = false := by
        revert hy
        cases y.source == e.source && y.target == e.target <;> simp
      rw [hyf]
      apply ih
      rw [List.any_cons] at h
      rw [hyf] at h
      simpa using h

lemma getEdge_setEdgeList (es : List Edge) (e : Edge) :
    (setEdgeList es e).find? (fun x => x.source == e.source && x.target == e.target) =
      some e := by
  unfold setEdgeList
  by_cases h : (es.any fun x => x.source == e.source && x.target == e.target) = true
  · rw [if_pos h]
    exact find?_map_overwrite e es h
  · rw [if_neg h]
    have hnone : es.find? (fun x => x.source == e.source && x.target == e.target) =
        none := by
      rw [List.find?_eq_none]
      exact fun x hx hpx => h (List.any_eq_true.mpr ⟨x, hx, hpx⟩)
    rw [List.find?_append, hnone]
    simp

lemma getEdge_addEdge (g : Graph) (s t : String) (a : EdgeData) :
    (g.addEdge s t a).getEdge s t = some a := by
  have h2 : ((setEdgeList g.edges ⟨s, t, a⟩).find?
      (fun x => x.source == s && x.target == t)) = some ⟨s, t, a⟩ :=
    getEdge_setEdgeList g.edges ⟨s, t, a⟩
  unfold Graph.getEdge Graph.addEdge
  rw [h2]
  rfl

lemma mem_successors (g : Graph) (n v : String) :
    v ∈ g.successors n ↔ ∃ e ∈ g.edges, e.source = n ∧ e.target = v := by
  unfold Graph.successors
  rw [List.mem_map]
  constructor
  · rintro ⟨e, he, rfl⟩
    rw [List.mem_filter] at he
    exact ⟨e, he.1, eq_of_beq he.2, rfl⟩
  · rintro ⟨e, he, h1, rfl⟩
    exact ⟨e, List.mem_filter.mpr ⟨he, by simp [h1]⟩, rfl⟩

lemma has_implementation_iff (g : Graph) (n : String)
    (hpairs : (g.edges.map fun e => (e.source, e.target)).Nodup) :
    has_implementation g n = true ↔
      ∃ e ∈ g.edges, e.source = n ∧ e.attrs.crossModal = true ∧
        (e.attrs.relation = "implements" ∨ e.attrs.relation = "describes") := by
  unfold has_implementation
  rw [List.any_eq_true]
  constructor
  · rintro ⟨s, hs, hqual⟩
    cases hfind : g.getEdge n s with
    | none => rw [hfind] at hqual; simp at hqual
    | some a =>
      rw [hfind] at hqual
      unfold Graph.getEdge at hfind
      cases hf2 : g.edges.find? (fun e => e.source == n && e.target == s) with
      | none => rw [hf2] at hfind; simp at hfind
      | some e1 =>
        rw [hf2] at hfind
        have ha : e1.attrs = a := by simpa using hfind
        have hmem := List.mem_of_find?_eq_some hf2
        have hpredA := List.find?_some hf2
        have hpred0 : (e1.source == n && e1.target == s) = true := hpredA
        have hpred := and_true_split hpred0
        refine ⟨e1, hmem, eq_of_beq hpred.1, ?_, ?_⟩
        · rw [ha]
          exact (and_true_split hqual).1
        · have hrel := (and_true_split hqual).2
          rw [Bool.or_eq_true] at hrel
          rcases hrel with h1 | h1
          · exact Or.inl (by rw [ha]; exact eq_of_beq h1)
          · exact Or.inr (by rw [ha]; exact eq_of_beq h1)
  · rintro ⟨e, he, hsrc, hcm, hrel⟩
    refine ⟨e.target, (mem_successors g n e.target).mpr ⟨e, he, hsrc, rfl⟩, ?_⟩
    unfold Graph.getEdge
    cases hf2 : g.edges.find? (fun x => x.source == n && x.target == e.target) with
    | none =>
      rw [List.find?_eq_none] at hf2
      exact absurd (by simp [hsrc]) (hf2 e he)
    | some e1 =>
      have hmem := List.mem_of_find?_eq_some hf2
      have hpredA := List.find?_some hf2
      have hpred0 : (e1.source == n && e1.target == e.target) = true := hpredA
      have hpred := and_true_split hpred0
      have he1 : e1 = e := by
        apply List.inj_on_of_nodup_map hpairs hmem he
        rw [eq_of_beq hpred.1, eq_of_beq hpred.2, hsrc]
      subst he1
      rcases hrel with h1 | h1 <;> simp [hcm, h1]

lemma mem_gap_nodes (g : Graph) (n : String) :
    n ∈ (handle_gap_query g).nodes ↔
      ∃ p ∈ g.nodes, p.1 = n ∧ p.2.modality = "paper" ∧
        has_implementation g n = false := by
  constructor
  · intro h
    simp only [handle_gap_query, List.mem_map] at h
    obtain ⟨entry, hentry, hnode⟩ := h
    rw [List.mem_filterMap] at hentry
    obtain ⟨p, hp, hfp⟩ := hentry
    by_cases hcond : (p.2.modality == "paper" && !(has_implementation g p.1)) = true
    · rw [if_pos hcond] at hfp
      injection hfp with hfp
      have hpn : p.1 = n := by rw [← hnode, ← hfp]
      obtain ⟨h1, h2⟩ := and_true_split hcond
      refine ⟨p, hp, hpn, eq_of_beq h1, ?_⟩
      rw [← hpn]
      revert h2
      cases has_implementation g p.1 <;> simp
    · rw [if_neg hcond] at hfp
      exact absurd hfp (by simp)
  · rintro ⟨p, hp, h1, h2, h3⟩
    simp only [handle_gap_query, List.mem_map]
    refine ⟨⟨p.1, p.2.name, p.2.ntype, p.2.description,
      "No code implementation found"⟩, ?_, h1⟩
    rw [List.mem_filterMap]
    refine ⟨p, hp, ?_⟩
    have hcond : (p.2.modality == "paper" && !(has_implementation g p.1)) = true := by
      rw [h1]
      simp [h2, h3]
    rw [if_pos hcond]

/-! ## C1 -/

/-- C1 counterexample: the claim says that whenever the
text-completion call raises or returns an unusable result the renderer
returns exactly the sentence "Found {count} {type} results in the
graph.".  At evidence type gap with count 2: when the underlying API
fails, _call_llm returns the error string, _enhance_with_llm passes it
through unchanged, and even when the call itself raises the fallback
sentence carries an extra trailing sentence, so neither branch returns
exactly the claimed template. -/
theorem c1_counterexample :
    call_llm (Except.error "timeout") = "Error calling LLM: timeout" ∧
    enhance_with_llm (some (call_llm (Except.error "timeout"))) "gap" 2 =
      "Error calling LLM: timeout" ∧
    ¬ enhance_with_llm (some (call_llm (Except.error "timeout"))) "gap" 2 =
      "Found 2 gap results in the graph." ∧
    ¬ enhance_with_llm none "gap" 2 = "Found 2 gap results in the graph." := by
  decide

/-- C1 (amended): when the _call_llm invocation raises, the renderer
returns the deterministic sentence "Found {count} {type} results in
the graph. Check the visualization for details."; when the invocation
returns a string, even an error-describing one, that string is
returned unchanged.  In both cases the renderer returns normally, so a
query never fails solely because the language-model call failed. -/
theorem c1_renderer_fallback (etype : String) (count : Nat) (s : String) :
    enhance_with_llm none etype count =
      "Found " ++ toString count ++ " " ++ etype ++
        " results in the graph. Check the visualization for details." ∧
    enhance_with_llm (some s) etype count = s :=
  ⟨rfl, rfl⟩

/-! ## C2 -/

/-- C2 counterexample: the claim caps the expanded node set at 30
nodes, but the size check runs only after a completed hop, so one seed
with 31 neighbors yields a 32-node result. -/
theorem c2_counterexample :
    ¬ (get_neighborhood_subgraph gCap ["s"] 2).nodes.length ≤ 30 ∧
    (get_neighborhood_subgraph gCap ["s"] 2).nodes.length = 32 := by
  decide

lemma uncappedLoop_shift (g : Graph) (k : Nat) (cur : List String) :
    uncappedLoop g k (stepOnce g cur) = uncappedLoop g (k + 1) cur := rfl

lemma expandLoop_trunc (g : Graph) :
    ∀ (hops : Nat) (cur : List String), ∃ k, k ≤ hops ∧
      expandLoop g hops cur = uncappedLoop g k cur ∧
      (∀ j, 0 < j → j < k → (uncappedLoop g j cur).length ≤ 30) ∧
      (k < hops → 0 < k ∧ 30 < (uncappedLoop g k cur).length) := by
  intro hops
  induction hops with
  | zero =>
    intro cur
    exact ⟨0, Nat.le_refl 0, rfl, fun j hj hjk => by omega, fun h => by omega⟩
  | succ h ih =>
    intro cur
    by_cases hc : 30 < (stepOnce g cur).length
    · refine ⟨1, by omega, ?_, fun j hj hjk => by omega, fun _ => ⟨by omega, ?_⟩⟩
      · show expandLoop g (h + 1) cur = uncappedLoop g 1 cur
        simp only [expandLoop, uncappedLoop, hc, if_true]
      · simpa [uncappedLoop] using hc
    · obtain ⟨k, hk, heq, hsmall, hstop⟩ := ih (stepOnce g cur)
      refine ⟨k + 1, by omega, ?_, ?_, ?_⟩
      · rw [← uncappedLoop_shift]
        simpa [expandLoop, hc] using heq
      · intro j hj hjk
        cases j with
        | zero => omega
        | succ j' =>
          cases j' with
          | zero =>
            simpa [uncappedLoop] using Nat.not_lt.mp hc
          | succ j'' =>
            have := hsmall (j'' + 1) (by omega) (by omega)
            rw [← uncappedLoop_shift]
            exact this
      · intro hlt
        obtain ⟨hk0, hklen⟩ := hstop (by omega)
        exact ⟨by omega, by rw [← uncappedLoop_shift]; exact hklen⟩

/-- C2 (amended): neighborhood expansion runs at most `hops`
iterations, performing a further iteration only while the accumulated
node set holds at most 30 nodes.  The returned node set equals the
uncapped expansion truncated at the first iteration whose result
exceeds 30 nodes — so the cap stops further growth at iteration
boundaries, but the final performed iteration can overshoot and the
result can exceed 30 nodes (the claimed hard cap, and stopping
mid-iteration, do not hold, as c2_counterexample shows). -/
theorem c2_expansion_truncation (g : Graph) (seeds : List String) (hops : Nat) :
    ∃ k, k ≤ hops ∧
      (get_neighborhood_subgraph g seeds hops).nodes =
        uncappedLoop g k (dedupList seeds) ∧
      (∀ j, 0 < j → j < k →
        (uncappedLoop g j (dedupList seeds)).length ≤ 30) ∧
      (k < hops → 0 < k ∧ 30 < (uncappedLoop g k (dedupList seeds)).length) :=
  expandLoop_trunc g hops (dedupList seeds)

/-- Closed instance of c2_expansion_truncation on the star graph. -/
theorem c2_expansion_truncation_witness :
    ∃ k, k ≤ 2 ∧
      (get_neighborhood_subgraph gCap ["s"] 2).nodes =
        uncappedLoop gCap k (dedupList ["s"]) ∧
      (∀ j, 0 < j → j < k →
        (uncappedLoop gCap j (dedupList ["s"])).length ≤ 30) ∧
      (k < 2 → 0 < k ∧ 30 < (uncappedLoop gCap k (dedupList ["s"])).length) :=
  c2_expansion_truncation gCap ["s"] 2

/-! ## C3 -/

/-- C3 counterexample: a query containing "depends" is not always
classified dependency, because the path label is checked first: "How X
depends on Y" contains "how" and classifies as path. -/
theorem c3_counterexample :
    hasTrigger "How X depends on Y" "depends" = true ∧
    classify_query "How X depends on Y" = "path" ∧
    ¬ classify_query "How X depends on Y" = "dependency" := by
  decide

/-- C3 (amended): a query containing "depends" classifies as
dependency provided no path trigger occurs in it; a query containing
"missing" classifies as gap provided no path and no dependency trigger
occurs; a query containing no trigger of any label classifies as
related. -/
theorem c3_classifier (q : String) :
    (hasTrigger q "depends" = true →
      (∀ k ∈ pathTriggers, hasTrigger q k = false) →
      classify_query q = "dependency") ∧
    (hasTrigger q "missing" = true →
      (∀ k ∈ pathTriggers ++ dependencyTriggers, hasTrigger q k = false) →
      classify_query q = "gap") ∧
    ((∀ p ∈ query_types, ∀ k ∈ p.2, hasTrigger q k = false) →
      classify_query q = "related") := by
  refine ⟨?_, ?_, ?_⟩
  · intro hdep hpath
    have hp : pathTriggers.any (fun k => hasTrigger q k) = false := by
      rw [List.any_eq_false]
      intro x hx
      simp [hpath x hx]
    have hd : dependencyTriggers.any (fun k => hasTrigger q k) = true := by
      rw [List.any_eq_true]
      exact ⟨"depends", by simp [dependencyTriggers], hdep⟩
    simp [classify_query, query_types, List.find?_cons, hp, hd]
  · intro hmiss htrig
    have hp : pathTriggers.any (fun k => hasTrigger q k) = false := by
      rw [List.any_eq_false]
      intro x hx
      simp [htrig x (List.mem_append.mpr (Or.inl hx))]
    have hd : dependencyTriggers.any (fun k => hasTrigger q k) = false := by
      rw [List.any_eq_false]
      intro x hx
      simp [htrig x (List.mem_append.mpr (Or.inr hx))]
    have hg : gapTriggers.any (fun k => hasTrigger q k) = true := by
      rw [List.any_eq_true]
      exact ⟨"missing", by simp [gapTriggers], hmiss⟩
    simp [classify_query, query_types, List.find?_cons, hp, hd, hg]
  · intro h
    have hall : ∀ p ∈ query_types, p.2.any (fun k => hasTrigger q k) = false := by
      intro p hp
      rw [List.any_eq_false]
      intro x hx
      simp [h p hp x hx]
    have hnone : query_types.find? (fun p => p.2.any (fun k => hasTrigger q k)) = none := by
      rw [List.find?_eq_none]
      intro p hp
      simp [hall p hp]
    simp [classify_query, hnone]

/-- Closed instances of c3_classifier on three concrete queries. -/
theorem c3_classifier_witness :
    classify_query "what depends on tokenizer" = "dependency" ∧
    classify_query "missing pieces" = "gap" ∧
    classify_query "zzz qqq" = "related" :=
  ⟨(c3_classifier "what depends on tokenizer").1 (by decide) (by decide),
   (c3_classifier "missing pieces").2.1 (by decide) (by decide),
   (c3_classifier "zzz qqq").2.2 (by decide)⟩

/-! ## C9 -/

/-- C9: end-to-end scenario 1.  On the two-node graph, the query "How
is Attention implemented?" classifies as path, entity resolution plus
node matching resolves paper_section_0 on the paper side and feature_0
on the code side, the strategy finds exactly one shortest path, that
path has two nodes (length 2), and the evidence count is 1. -/
theorem c9_end_to_end_scenario :
    classify_query "How is Attention implemented?" = "path" ∧
    findNodesByEntities gScenario
      (extract_entities gScenario "How is Attention implemented?")
      (some "paper") = ["paper_section_0"] ∧
    findNodesByEntities gScenario
      (extract_entities gScenario "How is Attention implemented?")
      (some "code") = ["feature_0"] ∧
    (handle_path_query gScenario
      (extract_entities gScenario "How is Attention implemented?")).paths.map
        PathDetails.nodes = [["paper_section_0", "feature_0"]] ∧
    (handle_path_query gScenario
      (extract_entities gScenario "How is Attention implemented?")).paths.map
        PathDetails.length = [2] ∧
    (handle_path_query gScenario
      (extract_entities gScenario "How is Attention implemented?")).count = 1 := by
  decide

/-! ## C5 -/

/-- C5 counterexample: the duality claim fails as universally stated,
because the dependency handler walks only the first 5 predecessors of
a seed.  In gSixPreds the edge p6 -> B exists and entity resolution on
"target" seeds exactly B, yet no dependency entry reports p6. -/
theorem c5_counterexample :
    (∃ e ∈ gSixPreds.edges, e.source = "p6" ∧ e.target = "B") ∧
    findNodesByEntities gSixPreds ["target"] none = ["B"] ∧
    ∀ d ∈ (handle_dependency_query gSixPreds ["target"]).dependencies,
      ¬ (d.src = "p6" ∧ d.tgt = "B") := by
  decide

/-- C5 (amended): the two strategies are structurally dual within
their traversal caps.  For a graph with edge A -> B: a dependency
query whose entity resolution yields exactly B reports A as a 1-hop
dependency provided A is among the first 5 predecessors of B in edge
insertion order, and an impact query whose resolution yields exactly A
reports B as a 1-hop affected node provided B is among the first 5
successors of A. -/
theorem c5_dependency_impact_dual (g : Graph) (entsB entsA : List String)
    (a b : String)
    (hB : findNodesByEntities g entsB none = [b])
    (ha : a ∈ (g.predecessors b).take 5)
    (hA : findNodesByEntities g entsA none = [a])
    (hb : b ∈ (g.successors a).take 5) :
    (∃ d ∈ (handle_dependency_query g entsB).dependencies,
      d.src = a ∧ d.tgt = b) ∧
    (∃ d ∈ (handle_impact_query g entsA).affected,
      d.src = a ∧ d.tgt = b) := by
  constructor
  · refine ⟨⟨a, b, (g.getEdgeD a b).relation, some (g.getEdgeD a b).description,
      nodeName g a, nodeName g b⟩, ?_, rfl, rfl⟩
    simp only [handle_dependency_query, hB]
    rw [List.mem_flatMap]
    refine ⟨b, by simp, ?_⟩
    rw [List.mem_flatMap]
    exact ⟨a, ha, List.mem_cons_self _ _⟩
  · refine ⟨⟨a, b, (g.getEdgeD a b).relation, some (g.getEdgeD a b).description,
      nodeName g a, nodeName g b, some (nodeModality g b)⟩, ?_, rfl, rfl⟩
    simp only [handle_impact_query, hA]
    rw [List.mem_flatMap]
    refine ⟨a, by simp, ?_⟩
    rw [List.mem_flatMap]
    exact ⟨b, hb, List.mem_cons_self _ _⟩

/-- Closed instance of c5_dependency_impact_dual on gDual. -/
theorem c5_dependency_impact_dual_witness :
    (∃ d ∈ (handle_dependency_query gDual ["beta"]).dependencies,
      d.src = "A" ∧ d.tgt = "B") ∧
    (∃ d ∈ (handle_impact_query gDual ["alpha"]).affected,
      d.src = "A" ∧ d.tgt = "B") :=
  c5_dependency_impact_dual gDual ["beta"] ["alpha"] "A" "B"
    (by decide) (by decide) (by decide) (by decide)

/-! ## C10 -/

/-- C10: the find strategy returns the full uncapped resolved node
list in the nodes field, while locations (and therefore count) cover
at most the first 10 of them; when more than 10 nodes resolve, count
is strictly smaller than the length of the nodes list. -/
theorem c10_find_nodes_uncapped (g : Graph) (entities : List String) :
    (handle_find_query g entities).nodes = findNodesByEntities g entities none ∧
    (handle_find_query g entities).locations.length =
      min 10 (findNodesByEntities g entities none).length ∧
    (handle_find_query g entities).count =
      min 10 (findNodesByEntities g entities none).length ∧
    (10 < (handle_find_query g entities).nodes.length →
      (handle_find_query g entities).count <
        (handle_find_query g entities).nodes.length) := by
  have hlen : (handle_find_query g entities).locations.length =
      min 10 (findNodesByEntities g entities none).length := by
    simp [handle_find_query, List.length_take]
  refine ⟨rfl, hlen, hlen, ?_⟩
  intro hgt
  have hn : (handle_find_query g entities).nodes =
      findNodesByEntities g entities none := rfl
  have hc : (handle_find_query g entities).count =
      (handle_find_query g entities).locations.length := rfl
  rw [hc, hlen, ← hn]
  omega

/-- Closed instance of c10_find_nodes_uncapped on gEleven: eleven
nodes resolve, count is 10 and strictly smaller than the nodes list
length. -/
theorem c10_find_nodes_uncapped_witness :
    (handle_find_query gEleven ["dup"]).nodes =
      findNodesByEntities gEleven ["dup"] none ∧
    (handle_find_query gEleven ["dup"]).count <
      (handle_find_query gEleven ["dup"]).nodes.length :=
  ⟨(c10_find_nodes_uncapped gEleven ["dup"]).1,
   (c10_find_nodes_uncapped gEleven ["dup"]).2.2.2 (by decide)⟩

/-! ## C4 -/

/-- C4: in both builders an edge is added only when both endpoints
already exist as nodes, so after any build every edge of the graph has
both endpoints among the nodes; a single relationship referencing an
unknown endpoint leaves the graph (hence its edge set) unchanged. -/
theorem c4_edge_endpoints (prev : Graph) (fd : List Feature)
    (rels : List Relationship) (pN cN : List UNode) (cE pE : List UEdge) :
    (∀ e ∈ (build_graph prev fd rels).edges,
      (build_graph prev fd rels).hasNode e.source = true ∧
      (build_graph prev fd rels).hasNode e.target = true) ∧
    (∀ e ∈ (build_unified_graph prev pN cN cE pE).edges,
      (build_unified_graph prev pN cN cE pE).hasNode e.source = true ∧
      (build_unified_graph prev pN cN cE pE).hasNode e.target = true) ∧
    (∀ (g : Graph) (r : Relationship),
      ¬ (g.hasNode r.source = true ∧ g.hasNode r.target = true) →
      addEdgesChecked g [r] Relationship.source Relationship.target mkRelEdge = g) := by
  refine ⟨?_, ?_, ?_⟩
  · have hinv : ∀ e ∈ (addNodesFrom emptyGraph fd Feature.id mkFeatureNode).edges,
        (addNodesFrom emptyGraph fd Feature.id mkFeatureNode).hasNode e.source = true ∧
        (addNodesFrom emptyGraph fd Feature.id mkFeatureNode).hasNode e.target = true := by
      intro e he
      rw [edges_addNodesFrom] at he
      simp [emptyGraph] at he
    exact endpoints_addEdgesChecked Relationship.source Relationship.target mkRelEdge
      rels _ hinv
  · have hinv2 : ∀ e ∈ (unifiedNodeGraph pN cN).edges,
        (unifiedNodeGraph pN cN).hasNode e.source = true ∧
        (unifiedNodeGraph pN cN).hasNode e.target = true := by
      intro e he
      unfold unifiedNodeGraph at he
      rw [edges_addNodesFrom, edges_addNodesFrom] at he
      simp [emptyGraph] at he
    have h3 := endpoints_addEdgesChecked UEdge.source UEdge.target mkPaperEdge
      pE _ hinv2
    exact endpoints_addEdgesChecked UEdge.source UEdge.target mkCrossEdge cE _ h3
  · intro g r h
    have hfalse : (g.hasNode r.source && g.hasNode r.target) = false := by
      cases h1 : g.hasNode r.source <;> cases h2 : g.hasNode r.target <;> simp_all
    simp only [addEdgesChecked, List.foldl_cons, List.foldl_nil]
    rw [if_neg]
    rw [hfalse]
    simp

/-- Closed instance of c4_edge_endpoints: the one built edge has both
endpoints as nodes, and a relationship with an unknown endpoint leaves
the empty graph unchanged. -/
theorem c4_edge_endpoints_witness :
    ((build_graph emptyGraph fdW relsW).hasNode eW.source = true ∧
     (build_graph emptyGraph fdW relsW).hasNode eW.target = true) ∧
    addEdgesChecked emptyGraph [rBad] Relationship.source Relationship.target
      mkRelEdge = emptyGraph :=
  ⟨(c4_edge_endpoints emptyGraph fdW relsW [] [] [] []).1 eW (by decide),
   (c4_edge_endpoints emptyGraph fdW relsW [] [] [] []).2.2 emptyGraph rBad
     (by decide)⟩

/-! ## C8 -/

/-- C8: both build operations fully replace the previous graph: the
result does not depend on the prior graph at all, every node id of the
result is supplied by the input records of the second build, and every
edge pair comes from its relationship/edge inputs — so nothing from a
first build survives a second build unless re-supplied. -/
theorem c8_full_replacement (prev1 prev2 : Graph) (fd : List Feature)
    (rels : List Relationship) (pN cN : List UNode) (cE pE : List UEdge) :
    build_graph prev1 fd rels = build_graph prev2 fd rels ∧
    build_unified_graph prev1 pN cN cE pE = build_unified_graph prev2 pN cN cE pE ∧
    (∀ p ∈ (build_graph prev1 fd rels).nodes, p.1 ∈ fd.map Feature.id) ∧
    (∀ e ∈ (build_graph prev1 fd rels).edges,
      (e.source, e.target) ∈ rels.map (fun r => (r.source, r.target))) ∧
    (∀ p ∈ (build_unified_graph prev1 pN cN cE pE).nodes,
      p.1 ∈ (pN ++ cN).map UNode.id) ∧
    (∀ e ∈ (build_unified_graph prev1 pN cN cE pE).edges,
      (e.source, e.target) ∈ (pE ++ cE).map (fun x => (x.source, x.target))) := by
  refine ⟨rfl, rfl, ?_, ?_, ?_, ?_⟩
  · intro p hp
    have hq : p.1 ∈ (build_graph prev1 fd rels).nodes.map Prod.fst :=
      List.mem_map.mpr ⟨p, hp, rfl⟩
    rw [show (build_graph prev1 fd rels).nodes =
        (addNodesFrom emptyGraph fd Feature.id mkFeatureNode).nodes from
      nodes_addEdgesChecked _ _ _ rels _] at hq
    rcases memId_addNodesFrom Feature.id mkFeatureNode fd emptyGraph p.1 hq with h | h
    · simp [emptyGraph] at h
    · exact h
  · intro e he
    have he' : e ∈ (addEdgesChecked (addNodesFrom emptyGraph fd Feature.id mkFeatureNode)
        rels Relationship.source Relationship.target mkRelEdge).edges := he
    rcases mem_addEdgesChecked _ _ _ rels _ e he' with h | ⟨r, hr, h1, h2⟩
    · rw [edges_addNodesFrom] at h
      simp [emptyGraph] at h
    · exact List.mem_map.mpr ⟨r, hr, by rw [h1, h2]⟩
  · intro p hp
    have hq : p.1 ∈ (build_unified_graph prev1 pN cN cE pE).nodes.map Prod.fst :=
      List.mem_map.mpr ⟨p, hp, rfl⟩
    have hnodes : (build_unified_graph prev1 pN cN cE pE).nodes =
        (unifiedNodeGraph pN cN).nodes := by
      show (addEdgesChecked (addEdgesChecked (unifiedNodeGraph pN cN) pE
        UEdge.source UEdge.target mkPaperEdge) cE
        UEdge.source UEdge.target mkCrossEdge).nodes = _
      rw [nodes_addEdgesChecked, nodes_addEdgesChecked]
    rw [hnodes] at hq
    unfold unifiedNodeGraph at hq
    rcases memId_addNodesFrom UNode.id mkCodeNode cN _ p.1 hq with h | h
    · rcases memId_addNodesFrom UNode.id mkPaperNode pN emptyGraph p.1 h with h' | h'
      · simp [emptyGraph] at h'
      · rw [List.map_append, List.mem_append]
        exact Or.inl h'
    · rw [List.map_append, List.mem_append]
      exact Or.inr h
  · intro e he
    have he' : e ∈ (addEdgesChecked (addEdgesChecked (unifiedNodeGraph pN cN) pE
        UEdge.source UEdge.target mkPaperEdge) cE
        UEdge.source UEdge.target mkCrossEdge).edges := he
    rcases mem_addEdgesChecked _ _ _ cE _ e he' with h | ⟨x, hx, h1, h2⟩
    · rcases mem_addEdgesChecked _ _ _ pE _ e h with h0 | ⟨x, hx, h1, h2⟩
      · unfold unifiedNodeGraph at h0
        rw [edges_addNodesFrom, edges_addNodesFrom] at h0
        simp [emptyGraph] at h0
      · rw [List.map_append, List.mem_append]
        exact Or.inl (List.mem_map.mpr ⟨x, hx, by rw [h1, h2]⟩)
    · rw [List.map_append, List.mem_append]
      exact Or.inr (List.mem_map.mpr ⟨x, hx, by rw [h1, h2]⟩)

/-- Closed instance of c8_full_replacement: two different previous
graphs build identically, and the built nodes and edges come from the
new input. -/
theorem c8_full_replacement_witness :
    build_graph gDual fdW relsW = build_graph gSixPreds fdW relsW ∧
    "f1" ∈ fdW.map Feature.id ∧
    (eW.source, eW.target) ∈ relsW.map (fun r => (r.source, r.target)) :=
  ⟨(c8_full_replacement gDual gSixPreds fdW relsW [] [] [] []).1,
   (c8_full_replacement gDual gSixPreds fdW relsW [] [] [] []).2.2.1
     ("f1", mkFeatureNode ⟨"f1", "FeatOne", "", [], []⟩) (by decide),
   (c8_full_replacement gDual gSixPreds fdW relsW [] [] [] []).2.2.2.1 eW
     (by decide)⟩

/-! ## C7 -/

/-- C7 counterexample: the flags do not track endpoint modality.  In
gUnifiedW the cross_modal_edges input joins the two paper nodes p1 and
p2 and the paper_edges input joins paper node p1 to code node c1: the
built edge p1 -> p2 carries cross_modal=true although it connects two
paper nodes, and the built edge p1 -> c1 carries cross_modal=false and
intra_paper=true although it connects a paper node to a code node. -/
theorem c7_counterexample :
    (gUnifiedW.lookupNode "p1").map NodeData.modality = some "paper" ∧
    (gUnifiedW.lookupNode "p2").map NodeData.modality = some "paper" ∧
    (gUnifiedW.lookupNode "c1").map NodeData.modality = some "code" ∧
    (gUnifiedW.getEdge "p1" "p2").map EdgeData.crossModal = some true ∧
    (gUnifiedW.getEdge "p1" "c1").map EdgeData.crossModal = some false ∧
    (gUnifiedW.getEdge "p1" "c1").map EdgeData.intraPaper = some true := by
  decide

/-- C7 (amended): in a unified-graph build the cross_modal and
intra_paper flags record which input list an edge came from, not the
endpoint modalities: an edge has cross_modal=true iff its ordered pair
occurs in the cross_modal_edges input, and intra_paper=true iff its
pair occurs in paper_edges but not in cross_modal_edges (the
cross-modal loop runs second and overwrites the attributes).  The
claimed modality characterization holds only when the inputs respect
it, which the builder does not check. -/
theorem c7_flag_provenance (prev : Graph) (pN cN : List UNode)
    (cE pE : List UEdge) (e : Edge)
    (he : e ∈ (build_unified_graph prev pN cN cE pE).edges) :
    (e.attrs.crossModal = true ↔
      ∃ x ∈ cE, x.source = e.source ∧ x.target = e.target) ∧
    (e.attrs.intraPaper = true ↔
      ((∃ x ∈ pE, x.source = e.source ∧ x.target = e.target) ∧
       ¬ ∃ x ∈ cE, x.source = e.source ∧ x.target = e.target)) := by
  have hg2edges : (unifiedNodeGraph pN cN).edges = [] := by
    unfold unifiedNodeGraph
    rw [edges_addNodesFrom, edges_addNodesFrom]
    rfl
  have hinv2 : ∀ e' ∈ (unifiedNodeGraph pN cN).edges,
      (unifiedNodeGraph pN cN).hasNode e'.source = true ∧
      (unifiedNodeGraph pN cN).hasNode e'.target = true := by
    intro e' he'
    rw [hg2edges] at he'
    simp at he'
  have hinv3 := endpoints_addEdgesChecked UEdge.source UEdge.target mkPaperEdge
    pE _ hinv2
  have heR : e ∈ (addEdgesChecked
      (addEdgesChecked (unifiedNodeGraph pN cN) pE
        UEdge.source UEdge.target mkPaperEdge) cE
      UEdge.source UEdge.target mkCrossEdge).edges := he
  have hendR := endpoints_addEdgesChecked UEdge.source UEdge.target mkCrossEdge
    cE _ hinv3 e heR
  have hsrcR : (addEdgesChecked (unifiedNodeGraph pN cN) pE
      UEdge.source UEdge.target mkPaperEdge).hasNode e.source = true := by
    have h := hendR.1
    rwa [hasNode_addEdgesChecked] at h
  have htgtR : (addEdgesChecked (unifiedNodeGraph pN cN) pE
      UEdge.source UEdge.target mkPaperEdge).hasNode e.target = true := by
    have h := hendR.2
    rwa [hasNode_addEdgesChecked] at h
  have hflags := flags_addEdgesChecked UEdge.source UEdge.target mkCrossEdge
    true false (fun x => ⟨rfl, rfl⟩) cE _ e heR
  have hg3char : ∀ e' ∈ (addEdgesChecked (unifiedNodeGraph pN cN) pE
      UEdge.source UEdge.target mkPaperEdge).edges,
      e'.attrs.crossModal = false ∧ e'.attrs.intraPaper = true ∧
        ∃ x ∈ pE, x.source = e'.source ∧ x.target = e'.target := by
    intro e' he'
    have hfl := flags_addEdgesChecked UEdge.source UEdge.target mkPaperEdge
      false true (fun x => ⟨rfl, rfl⟩) pE _ e' he'
    by_cases hex : ∃ x ∈ pE, UEdge.source x = e'.source ∧ UEdge.target x = e'.target ∧
        (unifiedNodeGraph pN cN).hasNode (UEdge.source x) = true ∧
        (unifiedNodeGraph pN cN).hasNode (UEdge.target x) = true
    · obtain ⟨x, hx, h1, h2, _, _⟩ := hex
      have hf := hfl.1 ⟨x, hx, h1, h2, by assumption, by assumption⟩
      exact ⟨hf.1, hf.2, x, hx, h1, h2⟩
    · have h0 := hfl.2 hex
      rw [hg2edges] at h0
      simp at h0
  constructor
  · constructor
    · intro hcm
      by_contra hne
      have hnex : ¬ ∃ x ∈ cE, UEdge.source x = e.source ∧ UEdge.target x = e.target ∧
          (addEdgesChecked (unifiedNodeGraph pN cN) pE
            UEdge.source UEdge.target mkPaperEdge).hasNode (UEdge.source x) = true ∧
          (addEdgesChecked (unifiedNodeGraph pN cN) pE
            UEdge.source UEdge.target mkPaperEdge).hasNode (UEdge.target x) = true := by
        rintro ⟨x, hx, h1, h2, _, _⟩
        exact hne ⟨x, hx, h1, h2⟩
      have h0 := hflags.2 hnex
      have hfalse := (hg3char e h0).1
      rw [hfalse] at hcm
      simp at hcm
    · rintro ⟨x, hx, h1, h2⟩
      have hex : ∃ x ∈ cE, UEdge.source x = e.source ∧ UEdge.target x = e.target ∧
          (addEdgesChecked (unifiedNodeGraph pN cN) pE
            UEdge.source UEdge.target mkPaperEdge).hasNode (UEdge.source x) = true ∧
          (addEdgesChecked (unifiedNodeGraph pN cN) pE
            UEdge.source UEdge.target mkPaperEdge).hasNode (UEdge.target x) = true :=
        ⟨x, hx, h1, h2, by rw [h1]; exact hsrcR, by rw [h2]; exact htgtR⟩
      exact (hflags.1 hex).1
  · constructor
    · intro hip
      by_cases hinC : ∃ x ∈ cE, x.source = e.source ∧ x.target = e.target
      · obtain ⟨x, hx, h1, h2⟩ := hinC
        have hex : ∃ x ∈ cE, UEdge.source x = e.source ∧ UEdge.target x = e.target ∧
            (addEdgesChecked (unifiedNodeGraph pN cN) pE
              UEdge.source UEdge.target mkPaperEdge).hasNode (UEdge.source x) = true ∧
            (addEdgesChecked (unifiedNodeGraph pN cN) pE
              UEdge.source UEdge.target mkPaperEdge).hasNode (UEdge.target x) = true :=
          ⟨x, hx, h1, h2, by rw [h1]; exact hsrcR, by rw [h2]; exact htgtR⟩
        have hfalse := (hflags.1 hex).2
        rw [hfalse] at hip
        simp at hip
      · have hnex : ¬ ∃ x ∈ cE, UEdge.source x = e.source ∧ UEdge.target x = e.target ∧
            (addEdgesChecked (unifiedNodeGraph pN cN) pE
              UEdge.source UEdge.target mkPaperEdge).hasNode (UEdge.source x) = true ∧
            (addEdgesChecked (unifiedNodeGraph pN cN) pE
              UEdge.source UEdge.target mkPaperEdge).hasNode (UEdge.target x) = true := by
          rintro ⟨x, hx, h1, h2, _, _⟩
          exact hinC ⟨x, hx, h1, h2⟩
        have h0 := hflags.2 hnex
        exact ⟨(hg3char e h0).2.2, hinC⟩
    · rintro ⟨⟨x, hx, h1, h2⟩, hnotC⟩
      have hnex : ¬ ∃ y ∈ cE, UEdge.source y = e.source ∧ UEdge.target y = e.target ∧
          (addEdgesChecked (unifiedNodeGraph pN cN) pE
            UEdge.source UEdge.target mkPaperEdge).hasNode (UEdge.source y) = true ∧
          (addEdgesChecked (unifiedNodeGraph pN cN) pE
            UEdge.source UEdge.target mkPaperEdge).hasNode (UEdge.target y) = true := by
        rintro ⟨y, hy, hh1, hh2, _, _⟩
        exact hnotC ⟨y, hy, hh1, hh2⟩
      have h0 := hflags.2 hnex
      exact (hg3char e h0).2.1

/-- Closed instance of c7_flag_provenance at the paper-to-paper edge
of gUnifiedW that the cross-modal input produced. -/
theorem c7_flag_provenance_witness :
    (eCrossW.attrs.crossModal = true ↔
      ∃ x ∈ ceW, x.source = eCrossW.source ∧ x.target = eCrossW.target) ∧
    (eCrossW.attrs.intraPaper = true ↔
      ((∃ x ∈ peW, x.source = eCrossW.source ∧ x.target = eCrossW.target) ∧
       ¬ ∃ x ∈ ceW, x.source = eCrossW.source ∧ x.target = eCrossW.target)) :=
  c7_flag_provenance emptyGraph pnW cnW ceW peW eCrossW (by decide)

/-! ## C6 -/

/-- C6: for a graph with unique node ids and unique edge pairs (as
every built graph has), a node n with attributes d appears in the gap
list exactly when it is paper-modality and has no outgoing edge
flagged cross_modal with relation implements or describes; and after
adding such an outgoing edge for n, n no longer appears in the gap
list. -/
theorem c6_gap_characterization (g : Graph) (n : String) (d : NodeData)
    (hd : g.lookupNode n = some d)
    (hkeys : (g.nodes.map Prod.fst).Nodup)
    (hpairs : (g.edges.map fun e => (e.source, e.target)).Nodup) :
    (n ∈ (handle_gap_query g).nodes ↔
      (d.modality = "paper" ∧
        ¬ ∃ e ∈ g.edges, e.source = n ∧ e.attrs.crossModal = true ∧
          (e.attrs.relation = "implements" ∨ e.attrs.relation = "describes"))) ∧
    (∀ s desc conf ev,
      n ∉ (handle_gap_query
        (g.addEdge n s ⟨"implements", desc, conf, ev, true, false⟩)).nodes) := by
  have hfind : ∃ pr, g.nodes.find? (fun p => p.1 == n) = some pr ∧ pr.2 = d := by
    unfold Graph.lookupNode at hd
    cases hf : g.nodes.find? (fun p => p.1 == n) with
    | none => rw [hf] at hd; simp at hd
    | some pr =>
      rw [hf] at hd
      exact ⟨pr, rfl, by simpa using hd⟩
  obtain ⟨pr, hprf, hprd⟩ := hfind
  have hprmem := List.mem_of_find?_eq_some hprf
  have hpr1A := List.find?_some hprf
  have hpr1b : (pr.1 == n) = true := hpr1A
  have hpr1 : pr.1 = n := eq_of_beq hpr1b
  constructor
  · rw [mem_gap_nodes]
    constructor
    · rintro ⟨p, hp, h1, h2, h3⟩
      have hpeq : p = pr := by
        apply List.inj_on_of_nodup_map hkeys hp hprmem
        rw [h1, hpr1]
      subst hpeq
      refine ⟨by rw [← hprd]; exact h2, ?_⟩
      intro hex
      have htrue := (has_implementation_iff g n hpairs).mpr hex
      rw [h3] at htrue
      simp at htrue
    · rintro ⟨hmod, hnex⟩
      refine ⟨pr, hprmem, hpr1, by rw [hprd]; exact hmod, ?_⟩
      cases hii : has_implementation g n with
      | false => rfl
      | true => exact absurd ((has_implementation_iff g n hpairs).mp hii) hnex
  · intro s desc conf ev hmem
    rw [mem_gap_nodes] at hmem
    obtain ⟨p, hp, h1, h2, h3⟩ := hmem
    have himpl : has_implementation
        (g.addEdge n s ⟨"implements", desc, conf, ev, true, false⟩) n = true := by
      unfold has_implementation
      rw [List.any_eq_true]
      refine ⟨s, ?_, ?_⟩
      · apply (mem_successors _ n s).mpr
        exact ⟨⟨n, s, ⟨"implements", desc, conf, ev, true, false⟩⟩,
          mem_setEdgeList.mpr (Or.inl rfl), rfl, rfl⟩
      · rw [getEdge_addEdge]
        simp
    rw [himpl] at h3
    simp at h3

/-- Closed instance of c6_gap_characterization on a one-node paper
graph: the node is a gap, and stops being one after an implements
cross-modal edge is added. -/
theorem c6_gap_characterization_witness :
    "p" ∈ (handle_gap_query gGapW).nodes ∧
    "p" ∉ (handle_gap_query
      (gGapW.addEdge "p" "c" ⟨"implements", "", 90, "", true, false⟩)).nodes :=
  ⟨((c6_gap_characterization gGapW "p" dPaperIdea (by decide) (by decide)
      (by decide)).1).mpr ⟨rfl, by decide⟩,
   (c6_gap_characterization gGapW "p" dPaperIdea (by decide) (by decide)
      (by decide)).2 "c" "" 90 ""⟩

end Hackathon
